/-
Verification of the layout inference engine of pdf2docx
(src/pdf2docx/layout/Layout.py) against its specification.

Shallow embedding conventions:
  - Python floats are modelled as rationals (the margin and spacing
    arithmetic uses only +, -, *, min, max, /2, which are exact);
  - in-place mutation of the Layout object is modelled by functions
    returning an updated Layout value;
  - a Python statement that raises is modelled with Except;
  - code of the repository that is imported by Layout.py but does not
    appear under src (Blocks.py, Rectangles.py, utils.py and the
    module-level table helpers) is modelled from the specification; each
    such definition carries a doc comment starting with
    "Modelled from the spec:".
-/
import Mathlib

/-- Modelled from the spec: utils.ITP, the normal-margin constant.  The
source comment at Layout.py line 214 fixes it as one typographic inch,
72 pt. -/
def ITP : ℚ := 72

/-- Modelled from the spec: utils.DM, the fixed small tolerance constant
that reserves extra free space at the right edge.  Its concrete value is
declared outside src; no claim depends on it, only on its existence. -/
def DM : ℚ := 1

/-- Bounding box (x0, y0, x1, y1) in page coordinates, origin top-left,
y increasing downward. -/
structure BBox where
  x0 : ℚ
  y0 : ℚ
  x1 : ℚ
  y1 : ℚ
deriving DecidableEq

/-- Border widths of a table cell, in the order (top, right, bottom,
left) used by Cell.border_width. -/
structure BorderWidth where
  top : ℚ
  right : ℚ
  bottom : ℚ
  left : ℚ
deriving DecidableEq

mutual
/-- Page content block: a text block or a table block.  Both carry a
bounding box and the space-before value assigned by the vertical-spacing
pass (none before the pass has run).  A table block owns a grid of cells
(a list of rows). -/
inductive Block : Type where
  | text (bbox : BBox) (spaceBefore : Option ℚ) : Block
  | table (bbox : BBox) (spaceBefore : Option ℚ) (cells : List (List Cell)) : Block

/-- Table cell: either an empty placeholder (merged into a neighbour) or
a filled cell owning a bounding box, border widths and a nested block
collection. -/
inductive Cell : Type where
  | empty : Cell
  | filled (bbox : BBox) (border : BorderWidth) (blocks : List Block) : Cell
end

/-- Bounding box of a block (block.bbox in the source). -/
def Block.bbox : Block → BBox
  | .text b _ => b
  | .table b _ _ => b

/-- Whether the block is a table block (block.is_table_block in the
source). -/
def Block.is_table_block : Block → Bool
  | .text _ _ => false
  | .table _ _ _ => true

/-- Classification tag value for an unclassified rect.  The source
resets failed rects with rect["type"] = -1 at Layout.py line 176. -/
def RECT_UNCLASSIFIED : Int := -1

/-- Modelled from the spec: the tag value marking a border rect.  The
concrete enumeration lives outside src; only that it differs from the
unclassified value matters. -/
def RECT_BORDER : Int := 10

/-- Rectangle shape: bounding box plus a mutable classification tag. -/
structure Rect where
  bbox : BBox
  type : Int
deriving DecidableEq

/-- The page model: width, height, owned block collection, the lazily
computed margin (the _margin attribute, none until page_margin runs) and
the owned rect collection. -/
structure Layout where
  width : ℚ
  height : ℚ
  blocks : List Block
  margin : Option (ℚ × ℚ × ℚ × ℚ)
  rects : List Rect

/-- Raw input bundle handed to Layout.__init__: the width, height and
blocks keys of the raw dict (width and height may be missing), plus any
rect data the raw dict happens to carry. -/
structure RawDict where
  width : Option ℚ
  height : Option ℚ
  blocks : List Block
  rects : List Rect

/-- Layout.__init__ (Layout.py lines 41-48): width and height default to
0.0 when missing, blocks are taken from the raw dict, _margin starts as
None and the rect collection starts empty (Rectangles()) regardless of
any rect data in the raw dict. -/
def Layout.init (raw : RawDict) : Layout :=
  { width := raw.width.getD 0
    height := raw.height.getD 0
    blocks := raw.blocks
    margin := none
    rects := [] }

/-- Minimum of a nonempty list given as head and tail, Python min(...). -/
def listMin (x : ℚ) (xs : List ℚ) : ℚ := xs.foldl min x

/-- Maximum of a nonempty list given as head and tail, Python max(...). -/
def listMax (x : ℚ) (xs : List ℚ) : ℚ := xs.foldl max x

/-- Margin computation of Layout.page_margin (Layout.py lines 205-244),
as a function of the page dimensions and the block collection.  Python
0.5 is the exact rational 1/2. -/
def page_margin_values (width height : ℚ) : List Block → ℚ × ℚ × ℚ × ℚ
  | [] => (ITP, ITP, ITP, ITP)
  | b :: bs =>
    let left := listMin b.bbox.x0 (bs.map (fun x => x.bbox.x0))
    let x_max := listMax b.bbox.x1 (bs.map (fun x => x.bbox.x1))
    let right0 := width - x_max - DM * 2
    let right1 := min right0 left
    let right := max right1 0
    let top := listMin b.bbox.y0 (bs.map (fun x => x.bbox.y0))
    let bottom0 := height - listMax b.bbox.y1 (bs.map (fun x => x.bbox.y1))
    let bottom1 := max bottom0 0
    let bottom := bottom1 * (1 / 2)
    (min ITP left, min ITP right, min ITP top, min ITP bottom)

/-- Layout.page_margin as a state update: stores the computed values in
the _margin attribute. -/
def Layout.page_margin (L : Layout) : Layout :=
  { L with margin := some (page_margin_values L.width L.height L.blocks) }

/-- Reference margin algorithm transcribed from the words of the claim
and of spec section 4.1, to be compared with page_margin_values:
left = min x0; right = max(0, min(width - max x1 - 2 tol, left));
top = min y0; bottom = (1/2) max(0, height - max y1); each side finally
capped at the normal-margin constant. -/
def spec_margin_reference (width height : ℚ) : List Block → ℚ × ℚ × ℚ × ℚ
  | [] => (ITP, ITP, ITP, ITP)
  | b :: bs =>
    let left := listMin b.bbox.x0 (bs.map (fun x => x.bbox.x0))
    let right := max 0 (min (width - listMax b.bbox.x1 (bs.map (fun x => x.bbox.x1)) - 2 * DM) left)
    let top := listMin b.bbox.y0 (bs.map (fun x => x.bbox.y0))
    let bottom := (1 / 2) * max 0 (height - listMax b.bbox.y1 (bs.map (fun x => x.bbox.y1)))
    (min ITP left, min ITP right, min ITP top, min ITP bottom)

/-- Python-level runtime errors that the embedded methods can raise. -/
inductive PyError where
  | nameError (missing : String) : PyError
  | typeError (msg : String) : PyError
deriving DecidableEq

/-- Modelled from the spec: validity filter of Blocks.preprocessing
(Blocks.py is not under src).  Spec sections 4.4 and 7: blocks with
zero or negative area, or inverted coordinates, are dropped silently. -/
def validBlock (b : Block) : Bool :=
  decide (b.bbox.x0 < b.bbox.x1) && decide (b.bbox.y0 < b.bbox.y1)

/-- Modelled from the spec: reading-position order used by
Blocks.preprocessing to reorder blocks (top-to-bottom, then
left-to-right). -/
def readingLe (a b : Block) : Bool :=
  if a.bbox.y0 < b.bbox.y0 then true
  else if b.bbox.y0 < a.bbox.y0 then false
  else decide (a.bbox.x0 ≤ b.bbox.x0)

/-- Insertion step of the reading-order sort. -/
def insertBlock (b : Block) : List Block → List Block
  | [] => [b]
  | c :: cs => if readingLe b c then b :: c :: cs else c :: insertBlock b cs

/-- Modelled from the spec: Blocks.preprocessing (Blocks.py is not under
src) — drop invalid blocks, then reorder by reading position. -/
def preprocessing (blocks : List Block) : List Block :=
  (blocks.filter validBlock).foldr insertBlock []

/-- Layout.parse (Layout.py lines 123-152).  After preprocessing and
page_margin, the source executes parse_explicit_table(layout, **kwargs):
inside the method the name layout is unbound (the instance is self), so
every call raises NameError there; none of the remaining pipeline steps
is ever reached.  Spec section 9 flags this free-variable reference as a
defect of the source. -/
def Layout.parse (L : Layout) : Except PyError Layout :=
  let L1 : Layout := { L with blocks := preprocessing L.blocks }
  let _L2 := L1.page_margin
  Except.error (PyError.nameError "layout")

/-- Bottom edge of a block, the previous-sibling bound used by the
spacing rule. -/
def blockY1 (b : Block) : ℚ := b.bbox.y1

mutual
/-- Modelled from the spec: the sibling pass of
Blocks.parse_vertical_spacing (Blocks.py is not under src).  Spec
section 4.3: the first block measures from the scope top, every later
block from the bottom of its predecessor, negative gaps clamp to zero;
table members recurse into their cells so that nesting is reached at
arbitrary depth.  The accumulator prevBottom is the scope top for the
head and the predecessor bottom afterwards. -/
def spacingPass (prevBottom : ℚ) : List Block → List Block
  | [] => []
  | b :: rest => processBlock prevBottom b :: spacingPass (blockY1 b) rest

/-- Spacing assignment for one block: set space-before to the clamped
gap; a table block additionally recurses into its cell grid. -/
def processBlock (prevBottom : ℚ) : Block → Block
  | .text bbox _ => .text bbox (some (max 0 (bbox.y0 - prevBottom)))
  | .table bbox _ cells => .table bbox (some (max 0 (bbox.y0 - prevBottom))) (rowsPass cells)

/-- Cell-grid recursion, row list. -/
def rowsPass : List (List Cell) → List (List Cell)
  | [] => []
  | row :: rest => rowPass row :: rowsPass rest

/-- Cell-grid recursion, one row. -/
def rowPass : List Cell → List Cell
  | [] => []
  | c :: rest => applyCellSpacing c :: rowPass rest

/-- Per-cell step of Layout.parse_vertical_spacing (lines 197-202 of the
source): an empty cell is skipped; a filled cell has its nested blocks
spaced within the local scope y0 + w_top/2 to y1 - w_bottom/2, where
(w_top, _, w_bottom, _) is the cell border width. -/
def applyCellSpacing : Cell → Cell
  | .empty => .empty
  | .filled bbox bw bs =>
      .filled bbox bw (spacingPass (bbox.y0 + bw.top * (1 / 2)) bs)
end

/-- Modelled from the spec: Blocks.parse_vertical_spacing with explicit
scope top and bottom (the signature used at lines 192 and 202 of the
source).  The scope bottom does not enter the space-before rule of spec
section 4.3 steps 2-3, so it is accepted and ignored. -/
def Blocks.parse_vertical_spacing (blocks : List Block) (scopeTop scopeBottom : ℚ) :
    List Block :=
  let _ := scopeBottom
  spacingPass scopeTop blocks

/-- Second phase of Layout.parse_vertical_spacing (lines 195-202): every
top-level table block has each of its cells respaced in its local scope;
other blocks are untouched. -/
def cellRepass (b : Block) : Block :=
  match b with
  | .table bbox sb cells => .table bbox sb (rowsPass cells)
  | b => b

/-- Layout.parse_vertical_spacing (Layout.py lines 186-202).  When the
margin is still None the subscription self.margin[-2:] raises TypeError;
otherwise the block collection is spaced at page scope (top to
height - bottom) and then every cell of every top-level table block is
spaced in its own local scope. -/
def Layout.parse_vertical_spacing (L : Layout) : Except PyError Layout :=
  match L.margin with
  | none => Except.error (PyError.typeError "NoneType is not subscriptable")
  | some m =>
    let top := m.2.2.1
    let bottom := m.2.2.2
    let blocks1 := Blocks.parse_vertical_spacing L.blocks top (L.height - bottom)
    Except.ok { L with blocks := blocks1.map cellRepass }

mutual
/-- Decidable check that every block of a collection, at every nesting
depth, has received a space-before value. -/
def blocksDone : List Block → Bool
  | [] => true
  | b :: rest => blockDone b && blocksDone rest

/-- Deep spacing check for one block: its own space-before is assigned
and, for a table block, every cell of its grid is done. -/
def blockDone : Block → Bool
  | .text _ sb => sb.isSome
  | .table _ sb cells => sb.isSome && rowsDone cells

/-- Deep spacing check for a cell grid. -/
def rowsDone : List (List Cell) → Bool
  | [] => true
  | row :: rest => rowDone row && rowsDone rest

/-- Deep spacing check for one row of cells. -/
def rowDone : List Cell → Bool
  | [] => true
  | c :: rest => cellDone c && rowDone rest

/-- Deep spacing check for one cell: empty cells are skipped, filled
cells require their nested collection to be done. -/
def cellDone : Cell → Bool
  | .empty => true
  | .filled _ _ bs => blocksDone bs
end

/-- Modelled from the spec: threshold below which one dimension of a
rect makes it thin and line-like, hence a border candidate (spec
section 4.2 step 1).  The concrete value lives outside src; no claim
depends on it. -/
def MAX_BORDER : ℚ := 6

/-- Modelled from the spec: border classification predicate — a rect is
line-like when it is thin horizontally or vertically. -/
def isBorderRect (r : Rect) : Bool :=
  decide (r.bbox.x1 - r.bbox.x0 ≤ MAX_BORDER) || decide (r.bbox.y1 - r.bbox.y0 ≤ MAX_BORDER)

/-- Modelled from the spec: the helper _set_table_borders called at
Layout.py line 165 (defined outside src).  It tags the border-like rects
of the group and reports whether any were found; a group with none is
rejected with every tag reverted to unclassified (spec section 4.2
step 1). -/
def set_table_borders (group : List Rect) : List Rect × Bool :=
  if group.any isBorderRect then
    (group.map (fun r => if isBorderRect r then { r with type := RECT_BORDER } else r), true)
  else
    (group.map (fun r => { r with type := RECT_UNCLASSIFIED }), false)

/-- Horizontal separator candidate: thin in the y direction. -/
def isHorizontalBorder (r : Rect) : Bool :=
  decide (r.bbox.y1 - r.bbox.y0 ≤ MAX_BORDER)

/-- Vertical separator candidate: thin in the x direction. -/
def isVerticalBorder (r : Rect) : Bool :=
  decide (r.bbox.x1 - r.bbox.x0 ≤ MAX_BORDER)

/-- Insertion step of the separator-position sort. -/
def insertSorted (x : ℚ) : List ℚ → List ℚ
  | [] => [x]
  | y :: ys => if x ≤ y then x :: y :: ys else y :: insertSorted x ys

/-- Sorts separator positions ascending. -/
def sortQ (xs : List ℚ) : List ℚ := xs.foldr insertSorted []

/-- Merges sorted separator positions lying within the tolerance of each
other (spec section 4.2 step 2). -/
def mergeTol : List ℚ → List ℚ
  | [] => []
  | [x] => [x]
  | x :: y :: rest =>
      if y - x ≤ DM then mergeTol (x :: rest) else x :: mergeTol (y :: rest)
termination_by l => l.length

/-- Adjacent pairs of a separator-position list, one pair per grid
band. -/
def adjacentPairs : List ℚ → List (ℚ × ℚ)
  | x :: y :: rest => (x, y) :: adjacentPairs (y :: rest)
  | _ => []

/-- Midpoint position of a horizontal border rect. -/
def hCenter (r : Rect) : ℚ := (r.bbox.y0 + r.bbox.y1) * (1 / 2)

/-- Midpoint position of a vertical border rect. -/
def vCenter (r : Rect) : ℚ := (r.bbox.x0 + r.bbox.x1) * (1 / 2)

/-- Thickness of the horizontal border rect sitting at position y, or 0
when no border rect lies there (spec section 4.2 step 3). -/
def hThicknessAt (borders : List Rect) (y : ℚ) : ℚ :=
  match borders.find? (fun r =>
      isHorizontalBorder r && decide (hCenter r - y ≤ DM) && decide (y - hCenter r ≤ DM)) with
  | some r => r.bbox.y1 - r.bbox.y0
  | none => 0

/-- Thickness of the vertical border rect sitting at position x, or 0
when no border rect lies there. -/
def vThicknessAt (borders : List Rect) (x : ℚ) : ℚ :=
  match borders.find? (fun r =>
      isVerticalBorder r && decide (vCenter r - x ≤ DM) && decide (x - vCenter r ≤ DM)) with
  | some r => r.bbox.x1 - r.bbox.x0
  | none => 0

/-- Modelled from the spec: the helper _parse_table_structure_from_rects
called at Layout.py line 169 (defined outside src).  Grid construction
and rejection follow spec section 4.2 steps 2 and 5: distinct separator
positions are derived from the border rects, merged within the
tolerance, and a grid with fewer than 2 rows or fewer than 2 columns is
rejected.  Cell merging (step 3) and shading attachment (step 4) are
omitted here because no claim depends on them. -/
def parse_table_structure (group : List Rect) : Option Block :=
  let borders := group.filter (fun r => r.type == RECT_BORDER)
  let hs := mergeTol (sortQ ((borders.filter isHorizontalBorder).map hCenter))
  let vs := mergeTol (sortQ ((borders.filter isVerticalBorder).map vCenter))
  match hs, vs with
  | h0 :: h1 :: h2 :: hrest, v0 :: v1 :: v2 :: vrest =>
    let hall := h0 :: h1 :: h2 :: hrest
    let vall := v0 :: v1 :: v2 :: vrest
    let cells := (adjacentPairs hall).map (fun yb =>
      (adjacentPairs vall).map (fun xb =>
        Cell.filled ⟨xb.1, yb.1, xb.2, yb.2⟩
          ⟨hThicknessAt borders yb.1, vThicknessAt borders xb.2,
           hThicknessAt borders yb.2, vThicknessAt borders xb.1⟩ []))
    some (Block.table ⟨v0, h0, listMax v0 (v1 :: v2 :: vrest), listMax h0 (h1 :: h2 :: hrest)⟩
      none cells)
  | _, _ => none

/-- Loop body of Layout.parse_table_structure_from_rects for one rect
group (lines 163-176): classify borders; with none found the group is
skipped; otherwise the structure parse runs and on failure every rect of
the group has its tag reset to unclassified (rect["type"] = -1). -/
def processGroup (group : List Rect) : Option Block × List Rect :=
  let sb := set_table_borders group
  if sb.2 = false then (none, sb.1)
  else
    match parse_table_structure sb.1 with
    | some t => (some t, sb.1)
    | none => (none, sb.1.map (fun r => { r with type := RECT_UNCLASSIFIED }))

/-- Connectivity test of the grouping step: bounding boxes touch or
overlap within the tolerance. -/
def bboxTouch (a b : BBox) : Bool :=
  decide (a.x0 ≤ b.x1 + DM) && decide (b.x0 ≤ a.x1 + DM) &&
  decide (a.y0 ≤ b.y1 + DM) && decide (b.y0 ≤ a.y1 + DM)

/-- Folds one rect into the running cluster list, merging every cluster
it touches. -/
def addToGroups (r : Rect) (gs : List (List Rect)) : List (List Rect) :=
  let touching := gs.filter (fun g => g.any (fun s => bboxTouch r.bbox s.bbox))
  let rest := gs.filter (fun g => !g.any (fun s => bboxTouch r.bbox s.bbox))
  (r :: touching.flatten) :: rest

/-- Modelled from the spec: Rectangles.group (Rectangles.py is not under
src) — partition the rect collection into connected clusters by
geometric adjacency (spec section 4.2). -/
def groupRects (rects : List Rect) : List (List Rect) :=
  rects.foldl (fun gs r => addToGroups r gs) []

/-- Layout.parse_table_structure_from_rects (Layout.py lines 155-183):
group the rects, process every group, and collect the recognized
tables.  When at least one table was produced the source then executes
layout["blocks"].extend(tables) where the name layout is unbound inside
the method, so that branch raises NameError; with no tables it returns
False.  Rect tag updates are mutations of the shared rect objects and
survive in the rect collection (in grouped order). -/
def Layout.parse_table_structure_from_rects (L : Layout) :
    Except PyError (Bool × Layout) :=
  let results := (groupRects L.rects).map processGroup
  let tables := results.filterMap (fun p => p.1)
  let newRects := (results.map (fun p => p.2)).flatten
  match tables with
  | _ :: _ => Except.error (PyError.nameError "layout")
  | [] => Except.ok (false, { L with rects := newRects })

/-- Per-cell effect asserted by the claim about cell-level vertical
spacing, transcribed from Layout.py lines 199-202: an empty cell is
skipped, a filled cell has its nested blocks spaced within the local
scope cell.y0 + top-border/2 to cell.y1 - bottom-border/2. -/
def cellLocalSpacing (c : Cell) : Cell :=
  match c with
  | Cell.empty => Cell.empty
  | Cell.filled cb bw bs =>
      Cell.filled cb bw (Blocks.parse_vertical_spacing bs
        (cb.y0 + bw.top * (1 / 2)) (cb.y1 - bw.bottom * (1 / 2)))

/-- Relation between a block before and after
Layout.parse_vertical_spacing: every table block keeps its bounding box
and its whole cell grid is exactly the original grid with
cellLocalSpacing applied to every cell — in particular the cell scopes
are local and independent of the page-level scope. -/
def tableNetRel (b b2 : Block) : Prop :=
  ∀ bbox sb cells, b = Block.table bbox sb cells →
    ∃ sb2, b2 = Block.table bbox sb2 (cells.map (fun row => row.map cellLocalSpacing))

/-- Concrete page with one block protruding past the left page edge
(x0 = -10); such a block survives preprocessing because its area is
positive and its coordinates are not inverted. -/
def layoutNegX : Layout :=
  { width := 600, height := 800,
    blocks := [Block.text ⟨-10, 50, 100, 100⟩ none],
    margin := none, rects := [] }

/-- Concrete page from the scenario of spec section 8: 600 x 800 page
with blocks (50,60)-(550,100) and (50,120)-(550,760). -/
def layoutScenario : Layout :=
  { width := 600, height := 800,
    blocks := [Block.text ⟨50, 60, 550, 100⟩ none, Block.text ⟨50, 120, 550, 760⟩ none],
    margin := none, rects := [] }

/-- Concrete page with no blocks. -/
def layoutEmpty : Layout :=
  { width := 600, height := 800, blocks := [], margin := none, rects := [] }

/-- Concrete rect group holding one 50 x 50 square: neither dimension is
thin, so the group has no border-classified rects. -/
def groupSquare : List Rect :=
  [{ bbox := ⟨0, 0, 50, 50⟩, type := RECT_UNCLASSIFIED }]

/-- Concrete page whose margin is already computed and whose block
collection holds one recognized table with a single filled cell. -/
def layoutOneTable : Layout :=
  { width := 600, height := 800,
    blocks := [Block.table ⟨50, 50, 300, 200⟩ none
      [[Cell.filled ⟨50, 50, 300, 200⟩ ⟨2, 1, 2, 1⟩ [Block.text ⟨60, 60, 290, 100⟩ none]]]],
    margin := some (50, 48, 60, 20), rects := [] }

/-- Concrete page holding a table nested inside the cell of another
table, two levels deep, with the margin already computed. -/
def layoutNested : Layout :=
  { width := 600, height := 800,
    blocks := [Block.table ⟨50, 50, 400, 400⟩ none
      [[Cell.filled ⟨50, 50, 400, 400⟩ ⟨2, 1, 2, 1⟩
          [Block.text ⟨60, 60, 390, 90⟩ none,
           Block.table ⟨60, 100, 390, 300⟩ none
             [[Cell.filled ⟨60, 100, 390, 300⟩ ⟨1, 1, 1, 1⟩
                 [Block.text ⟨70, 110, 380, 200⟩ none]]]]]]],
    margin := some (50, 48, 60, 20), rects := [] }

/-! Helper lemmas. -/

theorem listMin_nonneg {a : ℚ} {l : List ℚ} (ha : 0 ≤ a) (hl : ∀ x ∈ l, 0 ≤ x) :
    0 ≤ listMin a l := by
  induction l generalizing a with
  | nil => exact ha
  | cons x xs ih =>
    simp only [listMin, List.foldl_cons] at *
    exact ih (le_min ha (hl x (by simp))) (fun y hy => hl y (by simp [hy]))

theorem page_margin_values_eq_reference (w h : ℚ) (blocks : List Block) :
    page_margin_values w h blocks = spec_margin_reference w h blocks := by
  cases blocks with
  | nil => rfl
  | cons b bs =>
    simp only [page_margin_values, spec_margin_reference]
    rw [max_comm _ (0 : ℚ), mul_comm DM 2, max_comm _ (0 : ℚ), mul_comm _ ((1 : ℚ) / 2)]

/-! Claim theorems. -/

/-- C2.  For every non-empty block collection, Layout.page_margin
computes the margin by the reference algorithm of the claim:
left = min x0, right = max(0, min(width - max x1 - 2 tol, left)),
top = min y0, bottom = (1/2) max(0, height - max y1), each component
finally capped at the normal-margin constant. -/
theorem page_margin_matches_reference (L : Layout) (_hne : L.blocks ≠ []) :
    (L.page_margin).margin = some (spec_margin_reference L.width L.height L.blocks) := by
  simp [Layout.page_margin, page_margin_values_eq_reference]

theorem page_margin_matches_reference_witness :
    layoutScenario.blocks ≠ [] ∧
    (layoutScenario.page_margin).margin
      = some (spec_margin_reference layoutScenario.width layoutScenario.height
          layoutScenario.blocks) :=
  ⟨by simp [layoutScenario], page_margin_matches_reference layoutScenario (by simp [layoutScenario])⟩

/-- C3.  For every layout whose block collection is empty, page_margin
sets the margin to the normal-margin constant ITP on all four sides. -/
theorem page_margin_empty_blocks (L : Layout) (h : L.blocks = []) :
    (L.page_margin).margin = some (ITP, ITP, ITP, ITP) := by
  simp [Layout.page_margin, h, page_margin_values]

theorem page_margin_empty_blocks_witness :
    layoutEmpty.blocks = [] ∧ (layoutEmpty.page_margin).margin = some (ITP, ITP, ITP, ITP) :=
  ⟨rfl, page_margin_empty_blocks layoutEmpty rfl⟩

/-- C4.  Layout.parse never runs to completion: for every input bundle
the call fails with NameError, because the statement
parse_explicit_table(layout, **kwargs) references the unbound name
layout (the instance is self), a defect that spec section 9 itself
flags.  The fallback paths the claim describes are never reached. -/
theorem parse_raises_name_error (raw : RawDict) :
    Layout.parse (Layout.init raw) = Except.error (PyError.nameError "layout") := rfl

/-- C8.  Running the margin computation twice on an unmodified layout
yields exactly the state produced by running it once: the recomputation
reads only width, height and blocks, which page_margin does not change,
and overwrites the cached value with the identical tuple. -/
theorem page_margin_idempotent (L : Layout) :
    (L.page_margin).page_margin = L.page_margin := rfl

/-- C9.  On a freshly constructed Layout the margin property returns
None, and parse_vertical_spacing consequently fails: it subscripts the
margin value, and subscripting None raises TypeError. -/
theorem fresh_layout_margin_none (raw : RawDict) :
    (Layout.init raw).margin = none ∧
    (Layout.init raw).parse_vertical_spacing
      = Except.error (PyError.typeError "NoneType is not subscriptable") :=
  ⟨rfl, rfl⟩

/-- C10.  Layout.__init__ leaves the rect collection empty regardless of
any rect data in the raw dict, and missing width and height keys default
to 0.0 (Option.getD 0 equals 0 exactly on the missing case). -/
theorem init_ignores_raw_rects (raw : RawDict) :
    (Layout.init raw).rects = [] ∧
    (Layout.init raw).width = raw.width.getD 0 ∧
    (Layout.init raw).height = raw.height.getD 0 :=
  ⟨rfl, rfl, rfl⟩

/-- C1 counterexample.  On a page whose only block protrudes past the
left page edge (x0 = -10, a block that preprocessing keeps, since its
area is positive and its coordinates are not inverted), page_margin
returns left = -10: the left margin lies outside [0, ITP] and the right
margin (0) exceeds the left margin, so the claim as stated is false. -/
theorem page_margin_in_unit_range_cex :
    (layoutNegX.page_margin).margin = some (-10, 0, 50, 72) ∧
    ((-10 : ℚ) < 0) ∧ ¬ ((0 : ℚ) ≤ -10) := by
  refine ⟨?_, by norm_num, by norm_num⟩
  simp only [Layout.page_margin, layoutNegX, page_margin_values, listMin, listMax,
    List.map, List.foldl, Block.bbox]
  norm_num [min_def, max_def, ITP, DM]

/-- C1 (amended).  For every page layout whose block collection is
non-empty and whose blocks all start at non-negative x0 and y0, each of
the four margin values lies in [0, ITP] and the right margin is at most
the left margin.  The non-negativity premise is forced by the
counterexample: the source never clamps left or top from below. -/
theorem page_margin_in_unit_range (L : Layout) (hne : L.blocks ≠ [])
    (hnn : ∀ b ∈ L.blocks, 0 ≤ b.bbox.x0 ∧ 0 ≤ b.bbox.y0)
    (m : ℚ × ℚ × ℚ × ℚ) (hm : (L.page_margin).margin = some m) :
    (0 ≤ m.1 ∧ m.1 ≤ ITP) ∧ (0 ≤ m.2.1 ∧ m.2.1 ≤ ITP) ∧
    (0 ≤ m.2.2.1 ∧ m.2.2.1 ≤ ITP) ∧ (0 ≤ m.2.2.2 ∧ m.2.2.2 ≤ ITP) ∧
    m.2.1 ≤ m.1 := by
  have hmv : m = page_margin_values L.width L.height L.blocks := by
    simp only [Layout.page_margin, Option.some.injEq] at hm
    exact hm.symm
  subst hmv
  obtain ⟨b, bs, hbs⟩ : ∃ b bs, L.blocks = b :: bs := by
    cases h : L.blocks with
    | nil => exact absurd h hne
    | cons x xs => exact ⟨x, xs, rfl⟩
  rw [hbs] at hnn ⊢
  have hx : ∀ c ∈ b :: bs, (0 : ℚ) ≤ c.bbox.x0 := fun c hc => (hnn c hc).1
  have hy : ∀ c ∈ b :: bs, (0 : ℚ) ≤ c.bbox.y0 := fun c hc => (hnn c hc).2
  have hleft : 0 ≤ listMin b.bbox.x0 (bs.map fun x => x.bbox.x0) := by
    refine listMin_nonneg (hx b (List.mem_cons_self b bs)) ?_
    intro y hy2
    obtain ⟨c, hc, rfl⟩ := List.mem_map.mp hy2
    exact hx c (List.mem_cons_of_mem b hc)
  have htop : 0 ≤ listMin b.bbox.y0 (bs.map fun x => x.bbox.y0) := by
    refine listMin_nonneg (hy b (List.mem_cons_self b bs)) ?_
    intro y hy2
    obtain ⟨c, hc, rfl⟩ := List.mem_map.mp hy2
    exact hy c (List.mem_cons_of_mem b hc)
  have hITP : (0 : ℚ) ≤ ITP := by norm_num [ITP]
  simp only [page_margin_values]
  exact ⟨⟨le_min hITP hleft, min_le_left _ _⟩,
    ⟨le_min hITP (le_max_right _ _), min_le_left _ _⟩,
    ⟨le_min hITP htop, min_le_left _ _⟩,
    ⟨le_min hITP (mul_nonneg (le_max_right _ _) (by norm_num)), min_le_left _ _⟩,
    min_le_min (le_refl ITP) (max_le (min_le_right _ _) hleft)⟩

theorem page_margin_in_unit_range_witness :
    ((0 : ℚ) ≤ 50 ∧ (50 : ℚ) ≤ ITP) ∧ ((0 : ℚ) ≤ 48 ∧ (48 : ℚ) ≤ ITP) ∧
    ((0 : ℚ) ≤ 60 ∧ (60 : ℚ) ≤ ITP) ∧ ((0 : ℚ) ≤ 20 ∧ (20 : ℚ) ≤ ITP) ∧
    (48 : ℚ) ≤ 50 :=
  page_margin_in_unit_range layoutScenario (List.cons_ne_nil _ _) (by decide)
    ((50 : ℚ), (48 : ℚ), (60 : ℚ), (20 : ℚ)) (by
      simp only [Layout.page_margin, layoutScenario, page_margin_values, listMin, listMax,
        List.map, List.foldl, Block.bbox]
      norm_num [min_def, max_def, ITP, DM])

/-- C5.  For every rect group processed by
parse_table_structure_from_rects: when the group has no border-like
rects, or when table-structure parsing of the (border-tagged) group
fails, the loop body produces no table block and leaves every rect of
the group with the unclassified tag. -/
theorem failed_group_yields_no_table (group : List Rect)
    (h : (∀ r ∈ group, isBorderRect r = false) ∨
         parse_table_structure (set_table_borders group).1 = none) :
    (processGroup group).1 = none ∧
    ∀ r ∈ (processGroup group).2, r.type = RECT_UNCLASSIFIED := by
  by_cases hany : group.any isBorderRect = true
  · have hsb : set_table_borders group =
        (group.map (fun r => if isBorderRect r then { r with type := RECT_BORDER } else r), true) := by
      simp [set_table_borders, hany]
    cases h with
    | inl hall =>
      exfalso
      obtain ⟨r, hr, hbr⟩ := List.any_eq_true.mp hany
      rw [hall r hr] at hbr
      exact Bool.noConfusion hbr
    | inr hnone =>
      rw [hsb] at hnone
      simp only [processGroup, hsb, hnone]
      refine ⟨by simp, ?_⟩
      intro r hr
      obtain ⟨s, _, rfl⟩ := List.mem_map.mp hr
      rfl
  · have hsb : set_table_borders group =
        (group.map (fun r => { r with type := RECT_UNCLASSIFIED }), false) := by
      simp [set_table_borders, hany]
    simp only [processGroup, hsb]
    refine ⟨by simp, ?_⟩
    intro r hr
    obtain ⟨s, _, rfl⟩ := List.mem_map.mp hr
    rfl

theorem failed_group_yields_no_table_witness :
    (∀ r ∈ groupSquare, isBorderRect r = false) ∧
    ((processGroup groupSquare).1 = none ∧
     ∀ r ∈ (processGroup groupSquare).2, r.type = RECT_UNCLASSIFIED) := by
  have hall : ∀ r ∈ groupSquare, isBorderRect r = false := by
    intro r hr
    simp only [groupSquare, List.mem_singleton] at hr
    subst hr
    simp [isBorderRect, MAX_BORDER]
    norm_num
  exact ⟨hall, failed_group_yields_no_table groupSquare (Or.inl hall)⟩

theorem blockY1_processBlock (p : ℚ) (b : Block) :
    blockY1 (processBlock p b) = blockY1 b := by
  cases b <;> rfl

mutual
theorem spacingPass_idem (p : ℚ) (bs : List Block) :
    spacingPass p (spacingPass p bs) = spacingPass p bs := by
  match bs with
  | [] => rfl
  | b :: rest =>
    simp only [spacingPass]
    rw [blockY1_processBlock, processBlock_idem p b, spacingPass_idem (blockY1 b) rest]

theorem processBlock_idem (p : ℚ) (b : Block) :
    processBlock p (processBlock p b) = processBlock p b := by
  match b with
  | .text bbox sb => rfl
  | .table bbox sb cells =>
    simp only [processBlock]
    rw [rowsPass_idem cells]

theorem rowsPass_idem (cells : List (List Cell)) :
    rowsPass (rowsPass cells) = rowsPass cells := by
  match cells with
  | [] => rfl
  | row :: rest =>
    simp only [rowsPass]
    rw [rowPass_idem row, rowsPass_idem rest]

theorem rowPass_idem (row : List Cell) : rowPass (rowPass row) = rowPass row := by
  match row with
  | [] => rfl
  | c :: rest =>
    simp only [rowPass]
    rw [applyCellSpacing_idem c, rowPass_idem rest]

theorem applyCellSpacing_idem (c : Cell) :
    applyCellSpacing (applyCellSpacing c) = applyCellSpacing c := by
  match c with
  | .empty => rfl
  | .filled bbox bw bs =>
    simp only [applyCellSpacing]
    rw [spacingPass_idem]
end

theorem rowPass_eq_map (row : List Cell) : rowPass row = row.map applyCellSpacing := by
  induction row with
  | nil => rfl
  | cons c rest ih => simp only [rowPass, List.map_cons, ih]

theorem rowsPass_eq_map (cells : List (List Cell)) :
    rowsPass cells = cells.map (fun row => row.map applyCellSpacing) := by
  induction cells with
  | nil => rfl
  | cons row rest ih => simp only [rowsPass, List.map_cons, ih, rowPass_eq_map]

theorem cellLocalSpacing_eq_apply : cellLocalSpacing = applyCellSpacing := by
  funext c
  cases c <;> rfl

theorem spacing_net_rel (p : ℚ) (bs : List Block) :
    List.Forall₂ tableNetRel bs ((spacingPass p bs).map cellRepass) := by
  induction bs generalizing p with
  | nil => exact List.Forall₂.nil
  | cons b rest ih =>
    simp only [spacingPass, List.map_cons]
    refine List.Forall₂.cons ?_ (ih (blockY1 b))
    intro bbox sb cells hb
    subst hb
    refine ⟨some (max 0 (bbox.y0 - p)), ?_⟩
    simp only [processBlock, cellRepass]
    rw [rowsPass_idem cells, rowsPass_eq_map, cellLocalSpacing_eq_apply]

mutual
theorem spacingPass_done (p : ℚ) (bs : List Block) :
    blocksDone (spacingPass p bs) = true := by
  match bs with
  | [] => rfl
  | b :: rest =>
    simp only [spacingPass, blocksDone, Bool.and_eq_true]
    exact ⟨processBlock_done p b, spacingPass_done (blockY1 b) rest⟩

theorem processBlock_done (p : ℚ) (b : Block) :
    blockDone (processBlock p b) = true := by
  match b with
  | .text bbox sb => rfl
  | .table bbox sb cells =>
    simp only [processBlock, blockDone, Option.isSome_some, Bool.true_and]
    exact rowsPass_done cells

theorem rowsPass_done (cells : List (List Cell)) :
    rowsDone (rowsPass cells) = true := by
  match cells with
  | [] => rfl
  | row :: rest =>
    simp only [rowsPass, rowsDone, Bool.and_eq_true]
    exact ⟨rowPass_done row, rowsPass_done rest⟩

theorem rowPass_done (row : List Cell) : rowDone (rowPass row) = true := by
  match row with
  | [] => rfl
  | c :: rest =>
    simp only [rowPass, rowDone, Bool.and_eq_true]
    exact ⟨applyCellSpacing_done c, rowPass_done rest⟩

theorem applyCellSpacing_done (c : Cell) : cellDone (applyCellSpacing c) = true := by
  match c with
  | .empty => rfl
  | .filled bbox bw bs =>
    simp only [applyCellSpacing, cellDone]
    exact spacingPass_done _ bs
end

theorem blockDone_cellRepass (b : Block) (h : blockDone b = true) :
    blockDone (cellRepass b) = true := by
  match b with
  | .text _ _ => exact h
  | .table bbox sb cells =>
    simp only [cellRepass, blockDone, Bool.and_eq_true] at h ⊢
    exact ⟨h.1, rowsPass_done cells⟩

theorem blocksDone_map_cellRepass (bs : List Block) (h : blocksDone bs = true) :
    blocksDone (bs.map cellRepass) = true := by
  induction bs with
  | nil => rfl
  | cons b rest ih =>
    simp only [List.map_cons, blocksDone, Bool.and_eq_true] at h ⊢
    exact ⟨blockDone_cellRepass b h.1, ih h.2⟩

/-- C6.  For every layout with a computed margin,
Layout.parse_vertical_spacing succeeds and relates every table block of
the input to its output: the output cell grid is exactly the input grid
with every filled cell respaced in its own local scope
cell.y0 + top-border/2 to cell.y1 - bottom-border/2 (cellLocalSpacing),
independently of the page-level scope — the page margin does not appear
in the cell-level result. -/
theorem cell_spacing_local_scope (L : Layout) (m : ℚ × ℚ × ℚ × ℚ)
    (hm : L.margin = some m) :
    ∃ L2, L.parse_vertical_spacing = Except.ok L2 ∧
      List.Forall₂ tableNetRel L.blocks L2.blocks := by
  refine ⟨{ L with blocks :=
      (Blocks.parse_vertical_spacing L.blocks m.2.2.1 (L.height - m.2.2.2)).map cellRepass },
    ?_, ?_⟩
  · simp [Layout.parse_vertical_spacing, hm]
  · exact spacing_net_rel m.2.2.1 L.blocks

theorem cell_spacing_local_scope_witness :
    layoutOneTable.margin = some (50, 48, 60, 20) ∧
    ∃ L2, layoutOneTable.parse_vertical_spacing = Except.ok L2 ∧
      List.Forall₂ tableNetRel layoutOneTable.blocks L2.blocks :=
  ⟨rfl, cell_spacing_local_scope layoutOneTable (50, 48, 60, 20) rfl⟩

/-- C7.  For every layout with a computed margin (every layout of the
model is a finite tree, hence acyclic), parse_vertical_spacing succeeds
— the recursion is total — and the result satisfies the deep predicate
blocksDone: every block reachable from the top-level collection, at
arbitrary nesting depth through cells of tables of cells, has its
spacing assigned.  Being a function of the block tree, the pass touches
only cells reachable from the top-level collection. -/
theorem vertical_spacing_reaches_all_depths (L : Layout) (m : ℚ × ℚ × ℚ × ℚ)
    (hm : L.margin = some m) :
    ∃ L2, L.parse_vertical_spacing = Except.ok L2 ∧ blocksDone L2.blocks = true := by
  refine ⟨{ L with blocks :=
      (Blocks.parse_vertical_spacing L.blocks m.2.2.1 (L.height - m.2.2.2)).map cellRepass },
    ?_, ?_⟩
  · simp [Layout.parse_vertical_spacing, hm]
  · exact blocksDone_map_cellRepass _ (spacingPass_done m.2.2.1 L.blocks)

theorem vertical_spacing_reaches_all_depths_witness :
    layoutNested.margin = some (50, 48, 60, 20) ∧
    ∃ L2, layoutNested.parse_vertical_spacing = Except.ok L2 ∧
      blocksDone L2.blocks = true :=
  ⟨rfl, vertical_spacing_reaches_all_depths layoutNested (50, 48, 60, 20) rfl⟩
